import Mathlib

set_option autoImplicit false

/-!
Shallow embedding of the request-building core of the `h` repository
(source files `http-request-cli.js` and, for its near-duplicate legacy
variant, `http-cli.js`). JS strings are modelled as lists of characters;
JS objects are modelled as insertion-ordered association lists whose
assignment updates an existing key in place and otherwise appends.
-/

/-- A JS string, modelled as its sequence of characters. -/
abbrev JStr := List Char

/-- Whitespace removed by JS `String.prototype.trim` (ASCII fragment). -/
def jsWhitespace (c : Char) : Bool :=
  c == ' ' || c == '\t' || c == '\n' || c == '\r' || c == '\x0b' || c == '\x0c'

/-- JS `String.prototype.trim`. -/
def jsTrim (s : JStr) : JStr :=
  ((s.dropWhile jsWhitespace).reverse.dropWhile jsWhitespace).reverse

/-- JS `String.prototype.indexOf` for a one-character needle: index of the
first occurrence, `none` when the character is absent (JS returns -1). -/
def jsIndexOf (c : Char) : JStr → Option Nat
  | [] => none
  | x :: xs => if x = c then some 0 else (jsIndexOf c xs).map (· + 1)

def jsSplitAux (sep : Char) : JStr → JStr → List JStr
  | [], acc => [acc.reverse]
  | c :: cs, acc =>
    if c = sep then acc.reverse :: jsSplitAux sep cs []
    else jsSplitAux sep cs (c :: acc)

/-- JS `String.prototype.split` on a one-character separator. -/
def jsSplit (sep : Char) (s : JStr) : List JStr := jsSplitAux sep s []

/-- JS `Array.prototype.join`. -/
def jsJoin (sep : JStr) : List JStr → JStr
  | [] => []
  | [x] => x
  | x :: xs => x ++ sep ++ jsJoin sep xs

/-- JS `String.prototype.startsWith`. -/
def jsStartsWith : JStr → JStr → Bool
  | [], _ => true
  | _ :: _, [] => false
  | p :: ps, s :: ss => p == s && jsStartsWith ps ss

/-- ASCII case lowering, modelling `String.prototype.toLowerCase` on the
ASCII range (the only range header names use). -/
def lowerChar (c : Char) : Char :=
  if 65 ≤ c.toNat ∧ c.toNat ≤ 90 then Char.ofNat (c.toNat + 32) else c

/-- JS `String.prototype.toLowerCase` (ASCII fragment). -/
def jsToLower (s : JStr) : JStr := s.map lowerChar

/-- ASCII case raising, modelling `String.prototype.toUpperCase`. -/
def upperChar (c : Char) : Char :=
  if 97 ≤ c.toNat ∧ c.toNat ≤ 122 then Char.ofNat (c.toNat - 32) else c

/-- JS `String.prototype.toUpperCase` (ASCII fragment). -/
def jsToUpper (s : JStr) : JStr := s.map upperChar

/-- JS truthiness of an optional string flag: the empty string is falsy, so
an option carrying it behaves as an absent flag. -/
def strOpt : Option JStr → Option JStr
  | some [] => none
  | o => o

/-- A JS object with values of type `α`: insertion-ordered entry list. -/
abbrev Obj := List (JStr × JStr)

/-- JS property assignment `obj[k] = v`: update an existing key in place,
otherwise append the new entry. -/
def objInsert {α : Type} : List (JStr × α) → JStr → α → List (JStr × α)
  | [], k, v => [(k, v)]
  | (k0, v0) :: rest, k, v =>
    if k0 = k then (k0, v) :: rest else (k0, v0) :: objInsert rest k v

/-- JS property read `obj[k]`. -/
def objLookup {α : Type} : List (JStr × α) → JStr → Option α
  | [], _ => none
  | (k0, v0) :: rest, k => if k0 = k then some v0 else objLookup rest k

/-- Value attached to the last occurrence of a key in a raw entry list
(the occurrence that survives when the list is replayed into a JS object). -/
def lastAssoc {α : Type} : List (JStr × α) → JStr → Option α
  | [], _ => none
  | (k0, v0) :: rest, k =>
    match lastAssoc rest k with
    | some v => some v
    | none => if k0 = k then some v0 else none

/-- lodash `assignIn(dst, src)`: copy the entries of `src` into `dst`. -/
def assignIn (dst src : Obj) : Obj :=
  src.foldl (fun r kv => objInsert r kv.1 kv.2) dst

/-- `keysToLower` from `http-request-cli.js`: rebuild an object with every
key lowercased (lodash `transform` with a fresh accumulator). -/
def keysToLower (o : Obj) : Obj :=
  o.foldl (fun result kv => objInsert result (jsToLower kv.1) kv.2) []

/-- The entries of an object with their keys lowercased, duplicates kept. -/
def lowerEntries (o : Obj) : Obj := o.map (fun kv => (jsToLower kv.1, kv.2))

/-- A JSON value as produced by the platform `JSON.parse`. Numbers are kept
as their source literal, which is all the request pipeline inspects. -/
inductive Json where
  | null
  | bool (b : Bool)
  | num (lit : JStr)
  | str (s : JStr)
  | arr (elems : List Json)
  | obj (fields : List (JStr × Json))

/-- Whitespace accepted between JSON tokens. -/
def skipWS (s : JStr) : JStr :=
  s.dropWhile (fun c => c == ' ' || c == '\t' || c == '\n' || c == '\r')

/-- Value of a hexadecimal digit. -/
def hexVal (c : Char) : Option Nat :=
  if '0' ≤ c ∧ c ≤ '9' then some (c.toNat - 48)
  else if 'a' ≤ c ∧ c ≤ 'f' then some (c.toNat - 87)
  else if 'A' ≤ c ∧ c ≤ 'F' then some (c.toNat - 55)
  else none

/-- Body of a JSON string literal, after the opening quote: returns the
decoded characters and the input after the closing quote. -/
def parseJStringAux : JStr → JStr → Option (JStr × JStr)
  | '"' :: rest, acc => some (acc.reverse, rest)
  | '\\' :: e :: rest, acc =>
    match e with
    | '"' => parseJStringAux rest ('"' :: acc)
    | '\\' => parseJStringAux rest ('\\' :: acc)
    | '/' => parseJStringAux rest ('/' :: acc)
    | 'b' => parseJStringAux rest ('\x08' :: acc)
    | 'f' => parseJStringAux rest ('\x0c' :: acc)
    | 'n' => parseJStringAux rest ('\n' :: acc)
    | 'r' => parseJStringAux rest ('\r' :: acc)
    | 't' => parseJStringAux rest ('\t' :: acc)
    | 'u' =>
      match rest with
      | h1 :: h2 :: h3 :: h4 :: rest' =>
        match hexVal h1, hexVal h2, hexVal h3, hexVal h4 with
        | some a, some b, some c, some d =>
          parseJStringAux rest' (Char.ofNat (((a * 16 + b) * 16 + c) * 16 + d) :: acc)
        | _, _, _, _ => none
      | _ => none
    | _ => none
  | c :: rest, acc => if c.toNat < 32 then none else parseJStringAux rest (c :: acc)
  | [], _ => none

/-- One or more decimal digits: the digit run and the rest of the input. -/
def parseDigits (s : JStr) : Option (JStr × JStr) :=
  match s with
  | c :: rest =>
    if c.isDigit then
      some (c :: rest.takeWhile Char.isDigit, rest.dropWhile Char.isDigit)
    else none
  | [] => none

/-- A JSON number literal (optional sign, integer part, optional fraction
and exponent): the literal characters and the rest of the input. -/
def parseNumber (s : JStr) : Option (JStr × JStr) :=
  let (sign, s1) : JStr × JStr :=
    match s with
    | '-' :: r => (['-'], r)
    | _ => ([], s)
  let intPart : Option (JStr × JStr) :=
    match s1 with
    | '0' :: r => some (['0'], r)
    | c :: r =>
      if c.isDigit then some (c :: r.takeWhile Char.isDigit, r.dropWhile Char.isDigit)
      else none
    | [] => none
  match intPart with
  | none => none
  | some (ip, r1) =>
    let fracPart : Option (JStr × JStr) :=
      match r1 with
      | '.' :: r2 =>
        match parseDigits r2 with
        | some (ds, r3) => some ('.' :: ds, r3)
        | none => none
      | _ => some ([], r1)
    match fracPart with
    | none => none
    | some (fp, r3) =>
      let expPart : Option (JStr × JStr) :=
        match r3 with
        | e :: r4 =>
          if e = 'e' ∨ e = 'E' then
            let (sgn, r5) : JStr × JStr :=
              match r4 with
              | '+' :: r6 => (['+'], r6)
              | '-' :: r6 => (['-'], r6)
              | _ => ([], r4)
            match parseDigits r5 with
            | some (ds, r6) => some (e :: (sgn ++ ds), r6)
            | none => none
          else some ([], r3)
        | [] => some ([], r3)
      match expPart with
      | none => none
      | some (ep, r6) => some (sign ++ ip ++ fp ++ ep, r6)

mutual

/-- One JSON value at the head of the input (no leading whitespace), with
the remaining input. Fuel bounds the recursion depth. -/
def parseValue : Nat → JStr → Option (Json × JStr)
  | 0, _ => none
  | Nat.succ fuel, s =>
    match s with
    | 'n' :: 'u' :: 'l' :: 'l' :: r => some (Json.null, r)
    | 't' :: 'r' :: 'u' :: 'e' :: r => some (Json.bool true, r)
    | 'f' :: 'a' :: 'l' :: 's' :: 'e' :: r => some (Json.bool false, r)
    | '"' :: r =>
      match parseJStringAux r [] with
      | some (cs, rest) => some (Json.str cs, rest)
      | none => none
    | '[' :: r =>
      match skipWS r with
      | ']' :: r2 => some (Json.arr [], r2)
      | _ =>
        match parseElems fuel r with
        | some (vs, rest) => some (Json.arr vs, rest)
        | none => none
    | '{' :: r =>
      match skipWS r with
      | '}' :: r2 => some (Json.obj [], r2)
      | _ =>
        match parseMembers fuel r with
        | some (ms, rest) =>
          some (Json.obj (ms.foldl (fun o kv => objInsert o kv.1 kv.2) []), rest)
        | none => none
    | _ =>
      match parseNumber s with
      | some (lit, rest) => some (Json.num lit, rest)
      | none => none

/-- A non-empty comma-separated element sequence followed by `]`. -/
def parseElems : Nat → JStr → Option (List Json × JStr)
  | 0, _ => none
  | Nat.succ fuel, s =>
    match parseValue fuel (skipWS s) with
    | none => none
    | some (v, r) =>
      match skipWS r with
      | ',' :: r2 =>
        match parseElems fuel r2 with
        | some (vs, r3) => some (v :: vs, r3)
        | none => none
      | ']' :: r2 => some ([v], r2)
      | _ => none

/-- A non-empty comma-separated member sequence followed by a brace. -/
def parseMembers : Nat → JStr → Option (List (JStr × Json) × JStr)
  | 0, _ => none
  | Nat.succ fuel, s =>
    match skipWS s with
    | '"' :: r =>
      match parseJStringAux r [] with
      | none => none
      | some (k, r1) =>
        match skipWS r1 with
        | ':' :: r2 =>
          match parseValue fuel (skipWS r2) with
          | none => none
          | some (v, r3) =>
            match skipWS r3 with
            | ',' :: r4 =>
              match parseMembers fuel r4 with
              | some (ms, r5) => some ((k, v) :: ms, r5)
              | none => none
            | '}' :: r4 => some ([(k, v)], r4)
            | _ => none
        | _ => none
    | _ => none

end

/-- The platform `JSON.parse`, modelled on the strict ECMA-404 grammar: a
single value, surrounded by optional whitespace, covering the whole input;
`none` models the thrown `SyntaxError`. -/
def jsonParse (s : JStr) : Option Json :=
  match parseValue (2 * s.length + 4) (skipWS s) with
  | some (v, rest) => if skipWS rest = [] then some v else none
  | none => none

/-- `props2json` from `http-request-cli.js` (identical in `http-cli.js`):
replace the first backslash-newline with a space, split on newlines, and
reduce each line into an object. -/
def replaceFirstBackslashNL : JStr → JStr
  | '\\' :: '\n' :: rest => ' ' :: rest
  | c :: rest => c :: replaceFirstBackslashNL rest
  | [] => []

/-- The reducer body of `props2json`: `eqIdx` is the index of the first
`=` when positive, otherwise the line length; key and value are the
trimmed substrings around it. -/
def propsLine (obj : Obj) (line : JStr) : Obj :=
  let eqIdx : Nat :=
    match jsIndexOf '=' line with
    | some i => if 0 < i then i else line.length
    | none => line.length
  objInsert obj (jsTrim (line.take eqIdx)) (jsTrim (line.drop (eqIdx + 1)))

/-- `props2json` from the source. -/
def props2json (props : JStr) : Obj :=
  ((jsSplit '\n' (replaceFirstBackslashNL props)).foldl propsLine [])

/-- The value of a digit run read in base 10. -/
def digitsToNat (ds : JStr) : Nat :=
  ds.foldl (fun n c => n * 10 + (c.toNat - 48)) 0

/-- Decompose a JSON number literal into its unsigned decimal mantissa
(integer and fraction digits run together) and its base-10 exponent (the
written exponent shifted down by the number of fraction digits), so the
literal's magnitude is `m * 10 ^ e`. The sign is irrelevant to zero-ness. -/
def jsonNumParts (lit : JStr) : Nat × Int :=
  let l := match lit with
    | '-' :: r => r
    | _ => lit
  let intDs := l.takeWhile Char.isDigit
  let rest1 := l.dropWhile Char.isDigit
  let (fracDs, rest2) : JStr × JStr :=
    match rest1 with
    | '.' :: r => (r.takeWhile Char.isDigit, r.dropWhile Char.isDigit)
    | _ => ([], rest1)
  let expv : Int :=
    match rest2 with
    | _ :: r =>
      match r with
      | '+' :: r2 => (digitsToNat (r2.takeWhile Char.isDigit) : Int)
      | '-' :: r2 => -(digitsToNat (r2.takeWhile Char.isDigit) : Int)
      | _ => (digitsToNat (r.takeWhile Char.isDigit) : Int)
    | [] => 0
  (digitsToNat (intDs ++ fracDs), expv - (fracDs.length : Int))

/-- The constant `2 ^ 1075`, in a staged form that concrete proofs can
evaluate; `twoPow1075_eq` certifies the value. -/
def twoPow1075 : Nat := (2 ^ 215) ^ 5

theorem twoPow1075_eq : twoPow1075 = 2 ^ 1075 := by
  have h : (1075 : Nat) = 215 * 5 := by norm_num
  rw [twoPow1075, h, pow_mul]

/-- `10 ^ k` by iterated multiplication, so that concrete proofs can
evaluate it; `tenPow_eq` certifies the value. -/
def tenPow : Nat → Nat
  | 0 => 1
  | k + 1 => tenPow k * 10

theorem tenPow_eq (k : Nat) : tenPow k = 10 ^ k := by
  induction k with
  | zero => rfl
  | succ n ih => rw [tenPow, ih, pow_succ]

/-- Does a JSON number literal denote the binary64 double zero, as the
platform `JSON.parse` produces it? That happens exactly when the mantissa
is zero, or when the magnitude `m * 10 ^ e` is at most `2 ^ (-1075)`: below
that threshold round-to-nearest rounds to zero, and the tie at exactly
`2 ^ (-1075)`, halfway to the smallest denormal, goes to the even
significand, which is zero. For `e < 0` the comparison
`m * 10 ^ e ≤ 2 ^ (-1075)` is the exact integer test
`m * 2 ^ 1075 ≤ 10 ^ (-e)`; for `e ≥ 0` a nonzero mantissa is at least 1. -/
def jsonNumIsZero (lit : JStr) : Bool :=
  let (m, e) := jsonNumParts lit
  m == 0 || (decide (e < 0) && decide (m * twoPow1075 ≤ tenPow (-e).toNat))

/-- JS truthiness of a parsed JSON value: `null`, `false`, a number whose
double value is zero (a zero mantissa, or a literal such as 1e-400 that
underflows to zero) and the empty string are falsy; every other value,
objects and arrays included, is truthy. -/
def jsonTruthy : Json → Bool
  | Json.null => false
  | Json.bool b => b
  | Json.num lit => !jsonNumIsZero lit
  | Json.str s => !s.isEmpty
  | Json.arr _ => true
  | Json.obj _ => true

/-- A request body as assembled by `sendRequest`: a parsed JSON value, the
properties fallback object, or a multipart form wrapping a data file. -/
inductive Body where
  | json (v : Json)
  | props (o : Obj)
  | form (path : JStr)

/-- JS truthiness of a body value (`options.data`). -/
def bodyTruthy : Body → Bool
  | Body.json v => jsonTruthy v
  | Body.props _ => true
  | Body.form _ => true

/-- JS truthiness of the optional `options.data`. -/
def truthyData : Option Body → Bool
  | some b => bodyTruthy b
  | none => false

/-- The `-d` data handling of `sendRequest`: strict `JSON.parse` first, and
on a parse error the properties fallback. -/
def dataBody (d : JStr) : Body :=
  match jsonParse d with
  | some v => Body.json v
  | none => Body.props (props2json d)

/-- `addHeader` from `http-request-cli.js` (identical in `http-cli.js`):
split the argument on every `=`; the key is the first piece, the value the
second piece when present and the empty string otherwise. -/
def addHeader (header : JStr) (headers : Obj) : Obj :=
  let headerItems := jsSplit '=' header
  objInsert headers (headerItems.headD [])
    (if headerItems.length > 1 then headerItems.getD 1 [] else [])

/-- The content-type lookup table of `http-cli.js`; `http-request-cli.js`
resolves the token through the external `mime-types` database instead,
which is outside the repository and abstracted by the same shape. -/
def contentTypes : Obj :=
  [("json".toList, "application/json".toList),
   ("text".toList, "text/plain".toList)]

/-- `getContentTypes`: resolve a `--type` token, with the urlencoded
fallback for unknown tokens. -/
def getContentTypes (t : JStr) : JStr :=
  match objLookup contentTypes t with
  | some ctype => ctype
  | none => "application/x-www-form-urlencoded".toList

/-- The multipart content type produced by `form.getHeaders()`; the random
boundary parameter is abstracted away. -/
def formContentType : JStr := "multipart/form-data".toList

def contentTypeKey : JStr := "content-type".toList

def cookieKey : JStr := "cookie".toList

/-- Per-line read of the cookie file in `sendRequest`: keep the characters
before the first `;` when its index is positive, the whole line otherwise. -/
def cookieLineValue (v : JStr) : JStr :=
  v.take
    (match jsIndexOf ';' v with
     | some i => if 0 < i then i else v.length
     | none => v.length)

/-- The cookie-file read of `sendRequest`: split the file on newlines, strip
each line after the first `;`, and join with a semicolon and a space. -/
def loadCookie (content : JStr) : JStr :=
  jsJoin ("; ".toList) ((jsSplit '\n' content).map cookieLineValue)

/-- The sentinel entry pushed onto every saved cookie list. -/
def helloWorldCookie : JStr := "hello=world".toList

/-- The cookie-file write of `sendRequest`: the Set-Cookie values with the
sentinel pushed at the end, joined one per line; the file is overwritten
with exactly this content. -/
def saveCookies (setCookies : List JStr) : JStr :=
  jsJoin ("\n".toList) (setCookies ++ [helloWorldCookie])

/-- The URL normalization of `sendRequest`: prefix `https://` when the
target does not start with the literal characters `http`. -/
def normalizeUrl (url : JStr) : JStr :=
  if jsStartsWith ("http".toList) url then url
  else ("https://".toList) ++ url

/-- The cookie injection of `sendRequest`: when a cookie path is configured
and the file exists, set the `cookie` header to the joined value; a missing
file leaves the headers untouched. -/
def injectCookie (cookie : Option JStr) (fs : JStr → Option JStr) (headers : Obj) : Obj :=
  match cookie with
  | some path =>
    match fs path with
    | some content => objInsert headers cookieKey (loadCookie content)
    | none => headers
  | none => headers

/-- The commander option state read by `sendRequest`. The `-H` accumulator
defaults to the empty object; every other field is an optional string. The
degenerate boolean value a bare `-d` produces is not modelled. -/
structure Commander where
  header : Obj
  data : Option JStr
  datafile : Option JStr
  type : Option JStr
  cookie : Option JStr
  output : Option JStr

/-- The request description handed to the transport. -/
structure Options where
  url : JStr
  method : JStr
  headers : Obj
  data : Option Body
  stream : Bool

/-- The outcome of building a request: the options plus the warning lines
printed while building. -/
structure BuildResult where
  options : Options
  warnings : List JStr

def getDataWarning : JStr := "Cannot send data with GET, POST will be used".toList

/-- The body and header assembly of `sendRequest`: the datafile branch wins
over the data branch; the data branch tries `JSON.parse` and falls back to
`props2json`, and resolves `--type` into the content-type header. Reading a
missing datafile throws, modelled as an error result. -/
def bodyAndHeaders (c : Commander) (fs : JStr → Option JStr) :
    Except JStr (Option Body × Obj) :=
  match strOpt c.datafile with
  | some path =>
    match fs path with
    | none => Except.error (("ENOENT: ".toList) ++ path)
    | some _ =>
      Except.ok (some (Body.form path), objInsert c.header contentTypeKey formContentType)
  | none =>
    match strOpt c.data with
    | some d =>
      let headers :=
        match strOpt c.type with
        | some t => objInsert c.header contentTypeKey (getContentTypes t)
        | none => c.header
      Except.ok (some (dataBody d), headers)
    | none => Except.ok (none, c.header)

/-- `sendRequest` from `http-request-cli.js`, up to the transport call: URL
normalization, streaming flag, header seeding from `-H`, body assembly,
the GET-with-data method override with its warning, and cookie injection. -/
def sendRequest (c : Commander) (fs : JStr → Option JStr) (method url : JStr) :
    Except JStr BuildResult :=
  match bodyAndHeaders c fs with
  | Except.error e => Except.error e
  | Except.ok bh =>
    Except.ok
      { options :=
          { url := normalizeUrl url
            method :=
              if truthyData bh.1 ∧ jsToUpper method = "GET".toList
              then "POST".toList else method
            headers := injectCookie (strOpt c.cookie) fs bh.2
            data := bh.1
            stream := (strOpt c.output).isSome }
        warnings :=
          if truthyData bh.1 ∧ jsToUpper method = "GET".toList
          then [getDataWarning] else [] }

/-- The request object seen by the interceptor of `initInterceptors`: the
transport-default headers live in `headers.common`, the per-method default
headers in `headers[method]`. -/
structure AxiosRequest where
  common : Obj
  perMethod : Obj

/-- The request interceptor installed by `initInterceptors` in
`http-request-cli.js`: it assembles a lowercased merge of the three header
layers into a fresh object, hands that object to the verbose logger, and
returns the request itself unchanged. The first component is the returned
request, the second the logged merge. -/
def requestInterceptor (cmdHeader : Obj) (request : AxiosRequest) :
    AxiosRequest × Obj :=
  let headers :=
    assignIn (assignIn (keysToLower request.common) (keysToLower request.perMethod))
      (keysToLower cmdHeader)
  (request, headers)

/-- The properties-parse exactly as the spec words it: split on newlines,
split each line on its first `=` with both sides trimmed; a line with no
`=` maps the whole trimmed line to the empty string. -/
def specPropsParse (s : JStr) : Obj :=
  (jsSplit '\n' s).foldl
    (fun o line =>
      match jsIndexOf '=' line with
      | some i => objInsert o (jsTrim (line.take i)) (jsTrim (line.drop (i + 1)))
      | none => objInsert o (jsTrim line) [])
    []

/-- The split a single properties line receives under the amended reading:
split at the first `=` only when it sits at a positive index; a line with
no `=`, or starting with `=`, maps whole and trimmed to the empty value. -/
def amendedSplitLine (line : JStr) : JStr × JStr :=
  match jsIndexOf '=' line with
  | some i =>
    if 0 < i then (jsTrim (line.take i), jsTrim (line.drop (i + 1)))
    else (jsTrim line, [])
  | none => (jsTrim line, [])

/-- The amended properties-parse: collapse the first backslash-newline to a
space, split on newlines, and fold each line per `amendedSplitLine`. -/
def amendedPropsParse (s : JStr) : Obj :=
  (jsSplit '\n' (replaceFirstBackslashNL s)).foldl
    (fun o line => objInsert o (amendedSplitLine line).1 (amendedSplitLine line).2)
    []

/-- Modelled from the spec: the properties-parse with every literal
backslash-newline sequence collapsed to a single space, as the line
continuation sentence of the spec describes. -/
def collapseAllBackslashNL : JStr → JStr
  | '\\' :: '\n' :: rest => ' ' :: collapseAllBackslashNL rest
  | c :: rest => c :: collapseAllBackslashNL rest
  | [] => []

/-- Modelled from the spec: `props2json` as the spec intends it, with all
continuation lines joined before line-splitting. -/
def specPropsParseAllCollapsed (s : JStr) : Obj :=
  (jsSplit '\n' (collapseAllBackslashNL s)).foldl propsLine []

/-- The cookie load exactly as the spec words it: strip from each line
everything from the first `;` onward, and join the lines with a semicolon
and a space. -/
def specLoadCookie (content : JStr) : JStr :=
  jsJoin ("; ".toList)
    ((jsSplit '\n' content).map (fun line =>
      match jsIndexOf ';' line with
      | some i => line.take i
      | none => line))

/-- The cookie load under the amended reading: a line is stripped from its
first `;` onward only when that `;` sits at a positive index; a line
starting with `;` is kept whole. -/
def amendedLoadCookie (content : JStr) : JStr :=
  jsJoin ("; ".toList)
    ((jsSplit '\n' content).map (fun line =>
      match jsIndexOf ';' line with
      | some i => if 0 < i then line.take i else line
      | none => line))

/-- The URL normalization exactly as the spec words it, reading the
recognized schemes as `http://` and `https://`. -/
def specNormalizeUrl (url : JStr) : JStr :=
  if jsStartsWith ("http://".toList) url || jsStartsWith ("https://".toList) url
  then url
  else ("https://".toList) ++ url

/-!  Lemmas about the JS string and object primitives. -/

theorem jsSplitAux_of_not_mem (sep : Char) (l acc : JStr) (h : sep ∉ l) :
    jsSplitAux sep l acc = [acc.reverse ++ l] := by
  induction l generalizing acc with
  | nil => simp [jsSplitAux]
  | cons c cs ih =>
    have hc : c ≠ sep := fun hcs => h (hcs ▸ List.mem_cons_self c cs)
    have hcs : sep ∉ cs := fun hm => h (List.mem_cons_of_mem c hm)
    simp [jsSplitAux, hc, ih _ hcs]

theorem jsSplitAux_append (sep : Char) (a b acc : JStr) (h : sep ∉ a) :
    jsSplitAux sep (a ++ sep :: b) acc = (acc.reverse ++ a) :: jsSplit sep b := by
  induction a generalizing acc with
  | nil => simp [jsSplitAux, jsSplit]
  | cons c cs ih =>
    have hc : c ≠ sep := fun hcs => h (hcs ▸ List.mem_cons_self c cs)
    have hcs : sep ∉ cs := fun hm => h (List.mem_cons_of_mem c hm)
    simp [jsSplitAux, hc, ih _ hcs]

theorem jsSplit_of_not_mem (sep : Char) (l : JStr) (h : sep ∉ l) :
    jsSplit sep l = [l] := by
  simpa [jsSplit] using jsSplitAux_of_not_mem sep l [] h

theorem jsSplit_append (sep : Char) (a b : JStr) (h : sep ∉ a) :
    jsSplit sep (a ++ sep :: b) = a :: jsSplit sep b := by
  simpa [jsSplit] using jsSplitAux_append sep a b [] h

theorem jsSplit_ne_nil (sep : Char) (s : JStr) : jsSplit sep s ≠ [] := by
  have : ∀ l acc, jsSplitAux sep l acc ≠ [] := by
    intro l
    induction l with
    | nil => intro acc; simp [jsSplitAux]
    | cons c cs ih =>
      intro acc
      by_cases hc : c = sep <;> simp [jsSplitAux, hc, ih]
  exact this s []

theorem objLookup_objInsert {α : Type} (o : List (JStr × α)) (k : JStr) (v : α)
    (k' : JStr) :
    objLookup (objInsert o k v) k' = if k = k' then some v else objLookup o k' := by
  induction o with
  | nil =>
    by_cases h : k = k' <;> simp [objInsert, objLookup, h]
  | cons kv rest ih =>
    obtain ⟨k0, v0⟩ := kv
    by_cases h0 : k0 = k
    · subst h0
      by_cases h : k0 = k' <;> simp [objInsert, objLookup, h]
    · by_cases h : k0 = k'
      · subst h
        have hk : ¬ k = k0 := fun hk => h0 hk.symm
        simp [objInsert, objLookup, h0, hk]
      · simp [objInsert, objLookup, h0, h, ih]

theorem objLookup_assignIn (s d : Obj) (k : JStr) :
    objLookup (assignIn d s) k =
      match lastAssoc s k with
      | some v => some v
      | none => objLookup d k := by
  induction s generalizing d with
  | nil => simp [assignIn, lastAssoc]
  | cons kv rest ih =>
    obtain ⟨k0, v0⟩ := kv
    have step : assignIn d ((k0, v0) :: rest) = assignIn (objInsert d k0 v0) rest := by
      simp [assignIn]
    rw [step, ih]
    cases hla : lastAssoc rest k with
    | some v => simp [lastAssoc, hla]
    | none =>
      by_cases h0 : k0 = k
      · subst h0
        simp [lastAssoc, hla, objLookup_objInsert]
      · simp [lastAssoc, hla, objLookup_objInsert, h0]

theorem keysToLower_eq_assignIn (o : Obj) :
    keysToLower o = assignIn [] (lowerEntries o) := by
  simp [keysToLower, assignIn, lowerEntries, List.foldl_map]

theorem objLookup_keysToLower (o : Obj) (k : JStr) :
    objLookup (keysToLower o) k = lastAssoc (lowerEntries o) k := by
  rw [keysToLower_eq_assignIn, objLookup_assignIn]
  cases lastAssoc (lowerEntries o) k <;> simp [objLookup]

/-- Keys of a JS object. -/
def objKeys {α : Type} (o : List (JStr × α)) : List JStr := o.map Prod.fst

theorem objKeys_objInsert (o : Obj) (k v : JStr) :
    objKeys (objInsert o k v) =
      if k ∈ objKeys o then objKeys o else objKeys o ++ [k] := by
  induction o with
  | nil => simp [objInsert, objKeys]
  | cons kv rest ih =>
    obtain ⟨k0, v0⟩ := kv
    by_cases h0 : k0 = k
    · subst h0
      simp only [objInsert, if_pos rfl, objKeys, List.map_cons]
      simp
    · have hne : ¬ k = k0 := fun h => h0 h.symm
      simp only [objInsert, if_neg h0, objKeys, List.map_cons, List.mem_cons]
      simp only [objKeys] at ih
      by_cases hm : k ∈ List.map Prod.fst rest
      · have hor : k = k0 ∨ k ∈ List.map Prod.fst rest := Or.inr hm
        simp [ih, hm, hor]
      · have hor : ¬ (k = k0 ∨ k ∈ List.map Prod.fst rest) := by
          rintro (h | h)
          · exact hne h
          · exact hm h
        simp [ih, hm, hor, hne]

theorem nodup_objKeys_objInsert (o : Obj) (k v : JStr)
    (h : (objKeys o).Nodup) : (objKeys (objInsert o k v)).Nodup := by
  rw [objKeys_objInsert]
  by_cases hm : k ∈ objKeys o
  · simpa [hm] using h
  · simp only [hm, if_false]
    rw [List.nodup_append]
    refine ⟨h, List.nodup_singleton k, ?_⟩
    intro x hx hxk
    have : x = k := by simpa using hxk
    exact hm (this ▸ hx)

theorem mem_objKeys_of_objLookup (o : Obj) (k v : JStr)
    (h : objLookup o k = some v) : k ∈ objKeys o := by
  induction o with
  | nil => simp [objLookup] at h
  | cons kv rest ih =>
    obtain ⟨k0, v0⟩ := kv
    by_cases h0 : k0 = k
    · subst h0
      simp [objKeys]
    · simp only [objLookup, h0, if_false] at h
      simp only [objKeys, List.map_cons, List.mem_cons]
      exact Or.inr (by simpa [objKeys] using ih h)

theorem lastAssoc_eq_objLookup (o : Obj) (k : JStr)
    (h : (objKeys o).Nodup) : lastAssoc o k = objLookup o k := by
  induction o with
  | nil => rfl
  | cons kv rest ih =>
    obtain ⟨k0, v0⟩ := kv
    have hrest : (objKeys rest).Nodup := by
      have := h
      simp only [objKeys, List.map_cons, List.nodup_cons] at this
      exact this.2
    have hk0 : k0 ∉ objKeys rest := by
      have := h
      simp only [objKeys, List.map_cons, List.nodup_cons] at this
      exact this.1
    cases hla : lastAssoc rest k with
    | some v =>
      have hlook : objLookup rest k = some v := (ih hrest) ▸ hla
      have hne : ¬ k0 = k :=
        fun he => hk0 (he ▸ mem_objKeys_of_objLookup rest k v hlook)
      simp [lastAssoc, hla, objLookup, hne, hlook]
    | none =>
      have hlook : objLookup rest k = none := (ih hrest) ▸ hla
      by_cases h0 : k0 = k <;> simp [lastAssoc, hla, objLookup, h0, hlook]

theorem nodup_objKeys_keysToLower (o : Obj) : (objKeys (keysToLower o)).Nodup := by
  rw [keysToLower_eq_assignIn]
  have main : ∀ (s d : Obj), (objKeys d).Nodup → (objKeys (assignIn d s)).Nodup := by
    intro s
    induction s with
    | nil => intro d hd; simpa [assignIn] using hd
    | cons kv rest ih =>
      intro d hd
      have step : assignIn d (kv :: rest) = assignIn (objInsert d kv.1 kv.2) rest := by
        simp [assignIn]
      rw [step]
      exact ih _ (nodup_objKeys_objInsert d kv.1 kv.2 hd)
  exact main (lowerEntries o) [] (by simp [objKeys])

/-!  The properties fallback agrees with the amended split description. -/

theorem propsLine_eq_amended (obj : Obj) (line : JStr) :
    propsLine obj line =
      objInsert obj (amendedSplitLine line).1 (amendedSplitLine line).2 := by
  cases hix : jsIndexOf '=' line with
  | none =>
    simp [propsLine, amendedSplitLine, hix, List.take_length,
      List.drop_eq_nil_of_le (Nat.le_succ line.length), jsTrim]
  | some i =>
    by_cases hi : 0 < i
    · simp [propsLine, amendedSplitLine, hix, hi]
    · simp [propsLine, amendedSplitLine, hix, hi, List.take_length,
        List.drop_eq_nil_of_le (Nat.le_succ line.length), jsTrim]

theorem props2json_eq_amended (s : JStr) : props2json s = amendedPropsParse s := by
  unfold props2json amendedPropsParse
  exact List.foldl_ext _ _ []
    (fun o line _ => propsLine_eq_amended o line)

/-- The cookie read agrees with the amended strip description. -/
theorem loadCookie_eq_amended (content : JStr) :
    loadCookie content = amendedLoadCookie content := by
  unfold loadCookie amendedLoadCookie
  congr 1
  apply List.map_congr_left
  intro line _
  cases hix : jsIndexOf ';' line with
  | none => simp [cookieLineValue, hix, List.take_length]
  | some i =>
    by_cases hi : 0 < i <;> simp [cookieLineValue, hix, hi, List.take_length]

/-!  Claims. -/

/-- Claim C3: a header argument of the form name=value parses to the entry
mapping name to value; a bare name parses to the entry mapping it to the
empty string; repeated arguments accumulate into one mapping where a later
occurrence of the same name overwrites the earlier one and other keys are
untouched. Stated for names and values free of `=` (values containing `=`
are the subject of claim C10). -/
theorem C3_header_parsing (n v w : JStr) (hs : Obj)
    (hn : '=' ∉ n) (hv : '=' ∉ v) (hw : '=' ∉ w) :
    addHeader (n ++ '=' :: v) hs = objInsert hs n v
    ∧ addHeader n hs = objInsert hs n []
    ∧ objLookup (addHeader (n ++ '=' :: w) (addHeader (n ++ '=' :: v) hs)) n = some w
    ∧ ∀ k, k ≠ n → objLookup (addHeader (n ++ '=' :: v) hs) k = objLookup hs k := by
  have h1 : jsSplit '=' (n ++ '=' :: v) = [n, v] := by
    rw [jsSplit_append '=' n v hn, jsSplit_of_not_mem '=' v hv]
  have h2 : jsSplit '=' n = [n] := jsSplit_of_not_mem '=' n hn
  have h3 : jsSplit '=' (n ++ '=' :: w) = [n, w] := by
    rw [jsSplit_append '=' n w hn, jsSplit_of_not_mem '=' w hw]
  have e1 : addHeader (n ++ '=' :: v) hs = objInsert hs n v := by
    simp [addHeader, h1]
  have e3 : addHeader (n ++ '=' :: w) (addHeader (n ++ '=' :: v) hs)
      = objInsert (objInsert hs n v) n w := by
    rw [e1]
    simp [addHeader, h3]
  refine ⟨e1, by simp [addHeader, h2], ?_, ?_⟩
  · rw [e3, objLookup_objInsert]
    simp
  · intro k hk
    rw [e1, objLookup_objInsert, if_neg (Ne.symm hk)]

/-- Claim C3 witness at concrete header arguments. -/
theorem C3_header_parsing_witness :
    addHeader ("a=1".toList) [] = objInsert [] ("a".toList) ("1".toList)
    ∧ objLookup (addHeader ("a=2".toList) (addHeader ("a=1".toList) []))
        ("a".toList) = some ("2".toList) := by
  have h := C3_header_parsing ("a".toList) ("1".toList) ("2".toList) []
    (by decide) (by decide) (by decide)
  exact ⟨h.1, h.2.2.1⟩

/-- Claim C10: a header argument whose value itself contains `=` keeps only
the piece between the first and second `=` as the value; everything from
the second `=` onward is discarded. -/
theorem C10_header_value_truncated (n v rest : JStr) (hs : Obj)
    (hn : '=' ∉ n) (hv : '=' ∉ v) :
    addHeader (n ++ '=' :: v ++ '=' :: rest) hs = objInsert hs n v := by
  have h1 : jsSplit '=' (n ++ '=' :: (v ++ '=' :: rest))
      = n :: v :: jsSplit '=' rest := by
    rw [jsSplit_append '=' n _ hn, jsSplit_append '=' v rest hv]
  have hlen : (n :: v :: jsSplit '=' rest).length > 1 := by
    simp
  simp [addHeader, h1, List.getD]

/-- Claim C10 witness: the argument a=b=c yields the entry a maps-to b. -/
theorem C10_header_value_truncated_witness :
    addHeader ("a=b=c".toList) [] = objInsert [] ("a".toList) ("b".toList) := by
  exact C10_header_value_truncated ("a".toList) ("b".toList) ("c".toList) []
    (by decide) (by decide)

/-- Claim C4: saving the two Set-Cookie values writes them one per line with
the hello=world sentinel appended, and loading that file back yields the
name=value pairs joined with the sentinel, attributes discarded. -/
theorem C4_cookie_round_trip :
    saveCookies [("a=1; Path=/".toList), ("b=2".toList)]
      = ("a=1; Path=/\nb=2\nhello=world".toList)
    ∧ loadCookie ("a=1; Path=/\nb=2\nhello=world".toList)
      = ("a=1; b=2; hello=world".toList) := by
  exact ⟨rfl, rfl⟩

/-- Claim C8 (code bug): `props2json` collapses only the first
backslash-newline sequence, because the replace call uses a non-global
pattern; the spec-intended parse collapses every continuation. On the input
with two continuations the code leaves the second one in place. -/
theorem C8_continuation_bug :
    props2json ("a\\\nb\\\nc=1".toList)
      = [("a b\\".toList, ([] : JStr)), ("c".toList, "1".toList)]
    ∧ specPropsParseAllCollapsed ("a\\\nb\\\nc=1".toList)
      = [("a b c".toList, "1".toList)]
    ∧ props2json ("a\\\nb\\\nc=1".toList)
      ≠ specPropsParseAllCollapsed ("a\\\nb\\\nc=1".toList) := by
  exact ⟨rfl, rfl, by decide⟩

/-- Claim C1 (counterexample): the claim's properties-parse description
fails on the code in two places. A line whose first character is `=` is
kept whole with an empty value by the code, while the description splits
it; and a backslash-newline is collapsed by the code before line-splitting,
which the description's split does not do. -/
theorem C1_counterexample :
    dataBody ("=v".toList) = Body.props [("=v".toList, ([] : JStr))]
    ∧ specPropsParse ("=v".toList) = [(([] : JStr), "v".toList)]
    ∧ ([("=v".toList, ([] : JStr))] : Obj) ≠ [(([] : JStr), "v".toList)]
    ∧ dataBody ("x\\\ny=1".toList) = Body.props [("x y".toList, "1".toList)]
    ∧ specPropsParse ("x\\\ny=1".toList)
      = [("x\\".toList, ([] : JStr)), ("y".toList, "1".toList)]
    ∧ ([("x y".toList, "1".toList)] : Obj)
      ≠ [("x\\".toList, ([] : JStr)), ("y".toList, "1".toList)] := by
  exact ⟨rfl, rfl, by decide, rfl, rfl, by decide⟩

/-- Claim C1 (amended): for a data string that is valid JSON the body is
the parsed value; otherwise the body is the properties fallback, which
collapses the first backslash-newline to a space, splits on newlines, and
splits each line at its first `=` only when that `=` sits at a positive
index, trimming both sides; a line with no `=`, or starting with `=`, maps
whole and trimmed to the empty string. The built request carries exactly
this body. -/
theorem C1_data_body (d : JStr) :
    (∀ v, jsonParse d = some v → dataBody d = Body.json v)
    ∧ (jsonParse d = none → dataBody d = Body.props (amendedPropsParse d))
    ∧ ∀ (c : Commander) (fs : JStr → Option JStr) (method url : JStr)
        (r : BuildResult),
        strOpt c.datafile = none → strOpt c.data = some d →
        sendRequest c fs method url = Except.ok r →
        r.options.data = some (dataBody d) := by
  refine ⟨?_, ?_, ?_⟩
  · intro v hv
    simp [dataBody, hv]
  · intro hv
    simp [dataBody, hv, props2json_eq_amended]
  · intro c fs method url r hdf hd hsr
    simp only [sendRequest, bodyAndHeaders, hdf, hd] at hsr
    injection hsr with hsr
    subst hsr
    rfl

/-- Claim C1 witness at a concrete non-JSON data string. -/
theorem C1_data_body_witness :
    dataBody ("k = v".toList) = Body.props [("k".toList, "v".toList)] := by
  have h := (C1_data_body ("k = v".toList)).2.1 rfl
  rw [h]
  rfl

set_option maxRecDepth 40000 in
/-- Claim C2 (counterexample): with the data string 0 the parsed body is
the JSON number zero, and with the data string 1e-400 it is a number whose
double value underflows to zero; both are falsy, so in each case the GET
request keeps its method and no warning is printed even though a body is
present and sent. -/
theorem C2_counterexample :
    (sendRequest ⟨[], some ("0".toList), none, none, none, none⟩
        (fun _ => none) ("GET".toList) ("example.com".toList)).toOption.map
      (fun r => (r.options.method, r.options.data.isSome, r.warnings))
      = some (("GET".toList, true, ([] : List JStr)))
    ∧ (sendRequest ⟨[], some ("1e-400".toList), none, none, none, none⟩
        (fun _ => none) ("GET".toList) ("example.com".toList)).toOption.map
      (fun r => (r.options.method, r.options.data.isSome, r.warnings))
      = some (("GET".toList, true, ([] : List JStr))) := by
  exact ⟨rfl, by decide⟩

/-- Claim C2 (amended): the method override keys on JS truthiness of the
parsed body, the truthiness of the binary64 value for numbers: a truthy
body on a GET request switches the method to POST and prints the warning;
a falsy or absent body (null, false, a number whose double value is zero —
an underflowing literal such as 1e-400 included — or an empty string)
leaves method and warnings alone; a non-GET method is never rewritten. -/
theorem C2_method_override (c : Commander) (fs : JStr → Option JStr)
    (method url : JStr) (r : BuildResult)
    (h : sendRequest c fs method url = Except.ok r) :
    (truthyData r.options.data = true → jsToUpper method = "GET".toList →
        r.options.method = "POST".toList ∧ r.warnings = [getDataWarning])
    ∧ (truthyData r.options.data = false →
        r.options.method = method ∧ r.warnings = [])
    ∧ (jsToUpper method ≠ "GET".toList →
        r.options.method = method ∧ r.warnings = []) := by
  cases hbh : bodyAndHeaders c fs with
  | error e => simp [sendRequest, hbh] at h
  | ok bh =>
    simp only [sendRequest, hbh] at h
    injection h with h
    subst h
    refine ⟨?_, ?_, ?_⟩
    · intro ht hg
      simp only [] at ht
      constructor <;> simp [ht, hg]
    · intro hf
      simp only [] at hf
      constructor <;> simp [hf]
    · intro hg
      refine ⟨?_, ?_⟩
      · show (if truthyData bh.1 = true ∧ jsToUpper method = "GET".toList
              then "POST".toList else method) = method
        rw [if_neg (fun hand => hg (And.right hand))]
      · show (if truthyData bh.1 = true ∧ jsToUpper method = "GET".toList
              then [getDataWarning] else []) = ([] : List JStr)
        rw [if_neg (fun hand => hg (And.right hand))]

/-- Claim C2 witness: the falsy-body case at the concrete data string 0. -/
theorem C2_method_override_witness :
    (BuildResult.mk
      (Options.mk ("https://example.com".toList) ("GET".toList) []
        (some (Body.json (Json.num ("0".toList)))) false) []).options.method
      = "GET".toList := by
  have h : sendRequest ⟨[], some ("0".toList), none, none, none, none⟩
      (fun _ => none) ("GET".toList) ("example.com".toList)
      = Except.ok (BuildResult.mk
          (Options.mk ("https://example.com".toList) ("GET".toList) []
            (some (Body.json (Json.num ("0".toList)))) false) []) := rfl
  exact ((C2_method_override _ _ _ _ _ h).2.1 rfl).1

/-- Claim C5 (counterexample): on a cookie line that starts with `;` the
code keeps the whole line, while the claim's rule strips everything from
the first `;` onward and would leave the empty string. -/
theorem C5_counterexample :
    loadCookie (";a".toList) = (";a".toList)
    ∧ specLoadCookie (";a".toList) = ([] : JStr)
    ∧ ((";a".toList : JStr) ≠ ([] : JStr)) := by
  exact ⟨rfl, rfl, by decide⟩

/-- Claim C5 (amended): the cookie load strips each line from its first `;`
onward only when that `;` sits at a positive index (a line starting with
`;` is kept whole), joins the lines with a semicolon and a space, and the
built request carries exactly that string as its cookie header when the
file exists. -/
theorem C5_cookie_load (content : JStr) :
    loadCookie content = amendedLoadCookie content
    ∧ ∀ (c : Commander) (fs : JStr → Option JStr) (method url path : JStr)
        (r : BuildResult),
        strOpt c.cookie = some path → fs path = some content →
        sendRequest c fs method url = Except.ok r →
        objLookup r.options.headers cookieKey = some (loadCookie content) := by
  refine ⟨loadCookie_eq_amended content, ?_⟩
  intro c fs method url path r hp hf h
  cases hbh : bodyAndHeaders c fs with
  | error e => simp [sendRequest, hbh] at h
  | ok bh =>
    simp only [sendRequest, hbh] at h
    injection h with h
    subst h
    show objLookup (injectCookie (strOpt c.cookie) fs bh.2) cookieKey
      = some (loadCookie content)
    rw [hp]
    show objLookup
      (match fs path with
       | some cont => objInsert bh.2 cookieKey (loadCookie cont)
       | none => bh.2) cookieKey = some (loadCookie content)
    rw [hf]
    rw [objLookup_objInsert, if_pos rfl]

/-- Claim C5 witness at a concrete two-line cookie file. -/
theorem C5_cookie_load_witness :
    objLookup [("cookie".toList, "sid=42; tok=7".toList)] ("cookie".toList)
      = some ("sid=42; tok=7".toList) := by
  have h : sendRequest ⟨[], none, none, none, some ("jar".toList), none⟩
      (fun p => if p = "jar".toList
                then some ("sid=42; Path=/\ntok=7".toList) else none)
      ("GET".toList) ("example.com".toList)
      = Except.ok (BuildResult.mk
          (Options.mk ("https://example.com".toList) ("GET".toList)
            [("cookie".toList, "sid=42; tok=7".toList)] none false) []) := rfl
  exact (C5_cookie_load ("sid=42; Path=/\ntok=7".toList)).2
    ⟨[], none, none, none, some ("jar".toList), none⟩
    (fun p => if p = "jar".toList
              then some ("sid=42; Path=/\ntok=7".toList) else none)
    ("GET".toList) ("example.com".toList) ("jar".toList) _ rfl rfl h

/-- Claim C6: a configured cookie path whose file is missing behaves
exactly like no cookie flag at all; when the rest of the invocation is
well formed the build succeeds and the final headers carry exactly the
cookie entry the user put there with -H, so none when they put none. -/
theorem C6_missing_cookie_file (c : Commander) (fs : JStr → Option JStr)
    (method url path : JStr)
    (hp : strOpt c.cookie = some path) (hm : fs path = none) :
    sendRequest c fs method url
      = sendRequest { c with cookie := none } fs method url
    ∧ (strOpt c.datafile = none →
        ∃ r, sendRequest c fs method url = Except.ok r
          ∧ objLookup r.options.headers cookieKey
            = objLookup c.header cookieKey) := by
  have hlook : ∀ (o : Obj) (v : JStr),
      objLookup (objInsert o contentTypeKey v) cookieKey
        = objLookup o cookieKey := by
    intro o v
    rw [objLookup_objInsert]
    have hne : ¬ contentTypeKey = cookieKey := by decide
    rw [if_neg hne]
  have hbhe : bodyAndHeaders { c with cookie := none } fs = bodyAndHeaders c fs := rfl
  constructor
  · cases hbh : bodyAndHeaders c fs with
    | error e => simp [sendRequest, hbh, hbhe]
    | ok bh =>
      have hinj : injectCookie (strOpt c.cookie) fs bh.2 = bh.2 := by
        rw [hp]
        show (match fs path with
              | some cont => objInsert bh.2 cookieKey (loadCookie cont)
              | none => bh.2) = bh.2
        rw [hm]
      have hnone : injectCookie (strOpt (none : Option JStr)) fs bh.2 = bh.2 := rfl
      simp only [sendRequest, hbh, hbhe, hinj, hnone]
  · intro hdf
    have hbh : ∃ body headers, bodyAndHeaders c fs = Except.ok (body, headers)
        ∧ objLookup headers cookieKey = objLookup c.header cookieKey := by
      cases hd : strOpt c.data with
      | none => exact ⟨none, c.header, by simp [bodyAndHeaders, hdf, hd], rfl⟩
      | some d =>
        cases ht : strOpt c.type with
        | none =>
          exact ⟨some (dataBody d), c.header,
            by simp [bodyAndHeaders, hdf, hd, ht], rfl⟩
        | some t =>
          exact ⟨some (dataBody d),
            objInsert c.header contentTypeKey (getContentTypes t),
            by simp [bodyAndHeaders, hdf, hd, ht], hlook _ _⟩
    obtain ⟨body, headers, hbheq, hbl⟩ := hbh
    refine ⟨BuildResult.mk
      (Options.mk (normalizeUrl url)
        (if truthyData body ∧ jsToUpper method = "GET".toList
         then "POST".toList else method)
        (injectCookie (strOpt c.cookie) fs headers)
        body
        ((strOpt c.output).isSome))
      (if truthyData body ∧ jsToUpper method = "GET".toList
       then [getDataWarning] else []), ?_, ?_⟩
    · simp [sendRequest, hbheq]
    · show objLookup (injectCookie (strOpt c.cookie) fs headers) cookieKey
        = objLookup c.header cookieKey
      rw [hp]
      show objLookup
        (match fs path with
         | some cont => objInsert headers cookieKey (loadCookie cont)
         | none => headers) cookieKey = objLookup c.header cookieKey
      rw [hm]
      exact hbl

/-- Claim C6 witness with a cookie flag pointing at a missing file. -/
theorem C6_missing_cookie_file_witness :
    sendRequest ⟨[], none, none, none, some ("jar".toList), none⟩
        (fun _ => none) ("GET".toList) ("example.com".toList)
      = sendRequest ⟨[], none, none, none, none, none⟩
        (fun _ => none) ("GET".toList) ("example.com".toList) := by
  exact (C6_missing_cookie_file ⟨[], none, none, none, some ("jar".toList), none⟩
    (fun _ => none) ("GET".toList) ("example.com".toList) ("jar".toList)
    rfl rfl).1

/-- Claim C7 (counterexample): the code tests only that the target starts
with the literal characters http, so the scheme-less host httpbin.org is
sent unchanged, while the claim's recognized-scheme rule would prefix it. -/
theorem C7_counterexample :
    normalizeUrl ("httpbin.org".toList) = ("httpbin.org".toList)
    ∧ specNormalizeUrl ("httpbin.org".toList) = ("https://httpbin.org".toList)
    ∧ (("httpbin.org".toList : JStr) ≠ ("https://httpbin.org".toList))
    ∧ (sendRequest ⟨[], none, none, none, none, none⟩ (fun _ => none)
        ("GET".toList) ("httpbin.org".toList)).toOption.map
          (fun r => r.options.url)
      = some ("httpbin.org".toList) := by
  exact ⟨rfl, rfl, by decide, rfl⟩

/-- Claim C7 (amended): the request URL is prefixed with https:// exactly
when the target does not start with the literal characters http; any
target starting with http, scheme or not, is sent unchanged. -/
theorem C7_url_normalization (c : Commander) (fs : JStr → Option JStr)
    (method url : JStr) (r : BuildResult)
    (h : sendRequest c fs method url = Except.ok r) :
    r.options.url = normalizeUrl url
    ∧ (jsStartsWith ("http".toList) url = false →
        r.options.url = ("https://".toList) ++ url)
    ∧ (jsStartsWith ("http".toList) url = true → r.options.url = url) := by
  cases hbh : bodyAndHeaders c fs with
  | error e => simp [sendRequest, hbh] at h
  | ok bh =>
    simp only [sendRequest, hbh] at h
    injection h with h
    subst h
    refine ⟨rfl, ?_, ?_⟩
    · intro hf
      show normalizeUrl url = ("https://".toList) ++ url
      unfold normalizeUrl
      rw [hf]
      simp
    · intro ht
      show normalizeUrl url = url
      unfold normalizeUrl
      rw [ht]
      simp

/-- Claim C7 witness at the two URLs named by the claim. -/
theorem C7_url_normalization_witness :
    (BuildResult.mk (Options.mk ("https://example.com/x".toList)
        ("GET".toList) [] none false) []).options.url
      = ("https://".toList) ++ ("example.com/x".toList) := by
  have h : sendRequest ⟨[], none, none, none, none, none⟩ (fun _ => none)
      ("GET".toList) ("example.com/x".toList)
      = Except.ok (BuildResult.mk (Options.mk ("https://example.com/x".toList)
          ("GET".toList) [] none false) []) := rfl
  exact (C7_url_normalization _ _ _ _ _ h).2.1 rfl

/-- Claim C9 (counterexample): the interceptor returns the request itself
unchanged, so the final outbound request keeps the header key Accept in its
original case; the lowercased merge exists only in the logged object. -/
theorem C9_counterexample :
    (requestInterceptor [] ⟨[("Accept".toList, "x".toList)], []⟩).1
      = (⟨[("Accept".toList, "x".toList)], []⟩ : AxiosRequest)
    ∧ (requestInterceptor [] ⟨[("Accept".toList, "x".toList)], []⟩).2
      = [("accept".toList, "x".toList)]
    ∧ (("Accept".toList : JStr) ≠ ("accept".toList)) := by
  exact ⟨rfl, rfl, by decide⟩

/-- Claim C9 (amended): the interceptor forwards the request unchanged,
and the object it hands to the verbose logger is the three header layers
merged low-to-high — transport defaults, per-method defaults, CLI headers —
with every key lowercased first, a later occurrence of a key (within a
layer or in a later layer) overwriting an earlier one. -/
theorem C9_header_merge (cmdHeader : Obj) (request : AxiosRequest) :
    (requestInterceptor cmdHeader request).1 = request
    ∧ ∀ k, objLookup (requestInterceptor cmdHeader request).2 k
        = match lastAssoc (lowerEntries cmdHeader) k with
          | some v => some v
          | none =>
            match lastAssoc (lowerEntries request.perMethod) k with
            | some v => some v
            | none => lastAssoc (lowerEntries request.common) k := by
  refine ⟨rfl, ?_⟩
  intro k
  show objLookup
      (assignIn (assignIn (keysToLower request.common) (keysToLower request.perMethod))
        (keysToLower cmdHeader)) k = _
  rw [objLookup_assignIn, objLookup_assignIn,
    lastAssoc_eq_objLookup (keysToLower cmdHeader) k
      (nodup_objKeys_keysToLower cmdHeader),
    lastAssoc_eq_objLookup (keysToLower request.perMethod) k
      (nodup_objKeys_keysToLower request.perMethod),
    objLookup_keysToLower, objLookup_keysToLower, objLookup_keysToLower]
